import Mathlib

/-!
Verification of the resolution-fetch-cache pipeline of the yuki package
manager (a Go program).  The Go sources are embedded shallowly: pure
functions become Lean functions, the remote repository-hosting service and
the filesystem/VCS boundary are explicit environment parameters, and
fallible Go functions return `Option`/`Except`.
-/

/-! ## Version model (src/semver/semver.go) -/

/-- Mirrors `semver.Version`: major/minor/patch plus optional prerelease and
build-metadata labels (empty string when absent). -/
structure Version where
  major : Nat
  minor : Nat
  patch : Nat
  prerelease : String
  build : String
  deriving DecidableEq, Repr

/-- Mirrors `semver.Constraint`: an operator string paired with a version. -/
structure Constraint where
  operator : String
  version : Version
  deriving DecidableEq, Repr

/-- Prefix test on character lists (Go `strings.HasPrefix` on the bytes
of ASCII strings). -/
def listStartsWith : List Char → List Char → Bool
  | _, [] => true
  | [], _ :: _ => false
  | a :: as, b :: bs => a = b && listStartsWith as bs

/-- `strStarts s p` is Go `strings.HasPrefix(s, p)`. -/
def strStarts (s p : String) : Bool := listStartsWith s.data p.data

/-- Dropping `n` leading characters. -/
def strDropN (s : String) (n : Nat) : String := ⟨s.data.drop n⟩

/-- Suffix test (Go `strings.HasSuffix`). -/
def strEnds (s p : String) : Bool := listStartsWith s.data.reverse p.data.reverse

/-- Dropping `n` trailing characters. -/
def strDropRight (s : String) (n : Nat) : String := ⟨s.data.take (s.data.length - n)⟩

/-- Byte-lexicographic strict order on character lists, the Go `<` on
(ASCII) strings. -/
def charListLt : List Char → List Char → Bool
  | [], [] => false
  | [], _ :: _ => true
  | _ :: _, [] => false
  | a :: as, b :: bs => if a = b then charListLt as bs else decide (a < b)

/-- Substring occurrence test (Go `strings.Contains`). -/
def containsSub (sub : List Char) : List Char → Bool
  | [] => sub.isEmpty
  | a :: rest => listStartsWith (a :: rest) sub || containsSub sub rest

/-- Split at the first occurrence of `sub`: the text before it and the text
after it, or `none` when `sub` does not occur. -/
def breakOnSub (sub : List Char) : List Char → Option (List Char × List Char)
  | [] => if sub.isEmpty then some ([], []) else none
  | a :: rest =>
    if listStartsWith (a :: rest) sub then some ([], (a :: rest).drop sub.length)
    else
      match breakOnSub sub rest with
      | none => none
      | some (pre, post) => some (a :: pre, post)

/-- Split at every occurrence of the character `c`, keeping empty pieces
(Go `strings.Split` with a one-character separator). -/
def splitOnChar (c : Char) : List Char → List (List Char)
  | [] => [[]]
  | a :: rest =>
    match splitOnChar c rest with
    | [] => [[]]
    | h :: t => if a = c then [] :: h :: t else (a :: h) :: t

/-- Go `strings.TrimSpace`. -/
def trimWS (s : String) : String :=
  ⟨((s.data.dropWhile Char.isWhitespace).reverse.dropWhile Char.isWhitespace).reverse⟩

/-- Go `strings.Join`. -/
def joinSep (sep : String) : List String → String
  | [] => ""
  | h :: t => t.foldl (fun acc p => acc ++ sep ++ p) h

/-- Digit run to a number, as `strconv.Atoi` on a `\d+` match. -/
def natOfDigits (ds : List Char) : Nat :=
  ds.foldl (fun n c => n * 10 + (c.toNat - 48)) 0

/-- Character class `[0-9A-Za-z\-\.]` of the semver regex. -/
def isLabelChar (c : Char) : Bool :=
  c.isDigit || (c ≥ 'A' && c ≤ 'Z') || (c ≥ 'a' && c ≤ 'z') || c = '-' || c = '.'

/-- The `(?:-(label))?(?:\+(label))?$` tail of the semver regex in
`semver.ParseVersion`: an optional prerelease label (which cannot contain
`+`) followed by an optional build label, both nonempty and drawn from
`[0-9A-Za-z\-\.]`, ending the string. -/
def parseVersionTail (cs : List Char) : Option (String × String) :=
  match cs with
  | [] => some ("", "")
  | '-' :: rest =>
    let pr := rest.span (fun c => c ≠ '+')
    if pr.1.isEmpty || !(pr.1.all isLabelChar) then none
    else
      match pr.2 with
      | [] => some (⟨pr.1⟩, "")
      | '+' :: b =>
        if b.isEmpty || !(b.all isLabelChar) then none else some (⟨pr.1⟩, ⟨b⟩)
      | _ => none
  | '+' :: b =>
    if b.isEmpty || !(b.all isLabelChar) then none else some ("", ⟨b⟩)
  | _ => none

/-- Mirrors `semver.ParseVersion`: the anchored regex
`^v?(\d+)\.(\d+)\.(\d+)(?:-([0-9A-Za-z\-\.]+))?(?:\+([0-9A-Za-z\-\.]+))?$`,
with the optional leading `v` stripped. -/
def parseVersion (s : String) : Option Version :=
  let body := (if strStarts s "v" then strDropN s 1 else s).data
  let p1 := body.span (fun c => c.isDigit)
  if p1.1.isEmpty then none
  else
    match p1.2 with
    | '.' :: r2 =>
      let p2 := r2.span (fun c => c.isDigit)
      if p2.1.isEmpty then none
      else
        match p2.2 with
        | '.' :: r4 =>
          let p3 := r4.span (fun c => c.isDigit)
          if p3.1.isEmpty then none
          else
            match parseVersionTail p3.2 with
            | none => none
            | some (pre, bld) =>
              some ⟨natOfDigits p1.1, natOfDigits p2.1, natOfDigits p3.1, pre, bld⟩
        | _ => none
    | _ => none

/-- Mirrors `Version.Compare`: lexicographic on (major, minor, patch); on
equal triples a version without a prerelease label outranks one with a
label, and two labels compare as strings. -/
def compareV (v o : Version) : Int :=
  if v.major ≠ o.major then (if v.major < o.major then -1 else 1)
  else if v.minor ≠ o.minor then (if v.minor < o.minor then -1 else 1)
  else if v.patch ≠ o.patch then (if v.patch < o.patch then -1 else 1)
  else if v.prerelease = "" && o.prerelease ≠ "" then 1
  else if v.prerelease ≠ "" && o.prerelease = "" then -1
  else if v.prerelease ≠ o.prerelease then
    (if charListLt v.prerelease.data o.prerelease.data then -1 else 1)
  else 0

/-- Mirrors `Version.String`: `MAJOR.MINOR.PATCH[-PRERELEASE][+BUILD]`. -/
def versionToString (v : Version) : String :=
  let base := toString v.major ++ "." ++ toString v.minor ++ "." ++ toString v.patch
  let base := if v.prerelease ≠ "" then base ++ "-" ++ v.prerelease else base
  if v.build ≠ "" then base ++ "+" ++ v.build else base

/-- Mirrors `semver.ParseConstraint`: trims whitespace, then matches the
operator in source order (`^ ~ >= <= > < =`, implicit `=`). -/
def parseConstraint (s : String) : Option Constraint :=
  let c := trimWS s
  if strStarts c "^" then (parseVersion (strDropN c 1)).map (fun v => ⟨"^", v⟩)
  else if strStarts c "~" then (parseVersion (strDropN c 1)).map (fun v => ⟨"~", v⟩)
  else if strStarts c ">=" then (parseVersion (strDropN c 2)).map (fun v => ⟨">=", v⟩)
  else if strStarts c "<=" then (parseVersion (strDropN c 2)).map (fun v => ⟨"<=", v⟩)
  else if strStarts c ">" then (parseVersion (strDropN c 1)).map (fun v => ⟨">", v⟩)
  else if strStarts c "<" then (parseVersion (strDropN c 1)).map (fun v => ⟨"<", v⟩)
  else if strStarts c "=" then (parseVersion (strDropN c 1)).map (fun v => ⟨"=", v⟩)
  else (parseVersion c).map (fun v => ⟨"=", v⟩)

/-- Mirrors `Constraint.Satisfies`. -/
def satisfiesC (c : Constraint) (v : Version) : Bool :=
  if c.operator = "^" then
    v.major == c.version.major && decide (compareV v c.version ≥ 0)
  else if c.operator = "~" then
    v.major == c.version.major && v.minor == c.version.minor &&
      decide (compareV v c.version ≥ 0)
  else if c.operator = ">=" then decide (compareV v c.version ≥ 0)
  else if c.operator = "<=" then decide (compareV v c.version ≤ 0)
  else if c.operator = ">" then decide (compareV v c.version > 0)
  else if c.operator = "<" then decide (compareV v c.version < 0)
  else if c.operator = "=" then decide (compareV v c.version = 0)
  else false

/-- Mirrors `semver.FindBestMatch`: filter the candidates through
`Satisfies`, then take the maximum by `Compare` starting from the first
candidate. -/
def findBestMatch (c : Constraint) (versions : List Version) : Option Version :=
  match versions.filter (fun v => satisfiesC c v) with
  | [] => none
  | h :: t => some (t.foldl (fun best cand => if compareV cand best > 0 then cand else best) h)

/-! ## Remote repository metadata (src/cli/update.go github client, src/main.go) -/

/-- Mirrors `github.Release`: tag name plus the draft/prerelease flags. -/
structure Release where
  tagName : String
  draft : Bool
  prerelease : Bool
  deriving DecidableEq, Repr

/-- Modelled from the spec: the remote hosting API's latest-release endpoint
(`GET /releases/latest`), an external collaborator (spec paragraph 6, rule 5 of
paragraph 4.4).  `GetLatestRelease` in the github client only issues this HTTP
request; the endpoint itself returns the most recent release that is neither a
draft nor a prerelease, or fails (404) when there is none.  The release list is
ordered most recent first. -/
def latestReleaseEndpoint (releases : List Release) : Option Release :=
  (releases.filter (fun r => !r.draft && !r.prerelease)).head?

/-- Go `strings.Contains(s, sub)`. -/
def strContainsSub (s sub : String) : Bool := containsSub sub.data s.data

/-- Mirrors the HTTPS branch of `github.ParseRepoURL`: `url.Parse` is modelled
by splitting at `"://"` (host = text up to the next slash, then the path);
the host must be `github.com`; the path is trimmed of surrounding slashes and
split; a trailing `.git` is stripped from the second component.  Faithful for
well-formed absolute http(s) URLs, the only inputs this branch receives. -/
def parseHTTPRepoURL (repoURL : String) : Except String (String × String) :=
  match breakOnSub "://".data repoURL.data with
  | none => .error ("invalid URL: " ++ repoURL)
  | some (_, rest) =>
    match splitOnChar '/' rest with
    | [] => .error ("invalid URL: " ++ repoURL)
    | host :: pathParts =>
      if host ≠ "github.com".data then .error "only GitHub repositories are supported"
      else
        let trimmed := ((pathParts.dropWhile List.isEmpty).reverse.dropWhile List.isEmpty).reverse
        match trimmed with
        | owner :: repo :: _ =>
          .ok (⟨owner⟩, if strEnds ⟨repo⟩ ".git" then strDropRight ⟨repo⟩ 4 else ⟨repo⟩)
        | _ => .error ("invalid repository URL: " ++ repoURL)

/-- Mirrors the SSH branch of `github.ParseRepoURL`: the regex
`git@github\.com:([^/]+)/(.+?)(?:\.git)?$`, restricted to the anchored
single-segment `git@github.com:owner/repo[.git]` form (no claim exercises
this branch). -/
def parseSSHRepoURL (repoURL : String) : Except String (String × String) :=
  if strStarts repoURL "git@github.com:" then
    match splitOnChar '/' (strDropN repoURL 15).data with
    | [owner, repo] =>
      if !owner.isEmpty && !repo.isEmpty then
        .ok (⟨owner⟩,
          if strEnds ⟨repo⟩ ".git" && repo.length > 4 then strDropRight ⟨repo⟩ 4 else ⟨repo⟩)
      else .error ("invalid SSH repository URL: " ++ repoURL)
    | _ => .error ("invalid SSH repository URL: " ++ repoURL)
  else .error ("invalid SSH repository URL: " ++ repoURL)

/-- Mirrors `github.ParseRepoURL`: accepts `owner/repo`, http(s) GitHub URLs
and SSH-style locators, in the source's branch order. -/
def parseRepoURL (repoURL : String) : Except String (String × String) :=
  if !repoURL.data.contains '/' then .error ("invalid repository format: " ++ repoURL)
  else if !strContainsSub repoURL "://" && !repoURL.data.contains '@' then
    match splitOnChar '/' repoURL.data with
    | [owner, repo] => .ok (⟨owner⟩, ⟨repo⟩)
    | _ => .error ("invalid repository format: " ++ repoURL)
  else if strStarts repoURL "http" then parseHTTPRepoURL repoURL
  else if repoURL.data.contains '@' then parseSSHRepoURL repoURL
  else .error ("unsupported repository URL format: " ++ repoURL)

/-! ## The remote / filesystem boundary -/

/-- The external world the fetcher talks to, per repository `(owner, repo)`:
the remote's tag list (consulted through `git ls-remote --tags`), its release
list (consulted through the latest-release endpoint), the tip commits of the
`main` and `master` branches (`git ls-remote <url> refs/heads/<b>`; `none`
models a failing command or empty output), the clone operation
(`cloneRepository`'s subprocess work, including the shallow-then-full
fallback: `some path` on success), whether a local path exists (`os.Stat` in
the cache's staleness check), and the tree-checksum of an on-disk directory
(`integrity.CalculateDirectoryChecksum` applied to the clone target). -/
structure RemoteEnv where
  tags : String → String → List String
  releases : String → String → List Release
  mainTip : String → String → Option String
  masterTip : String → String → Option String
  clone : String → String → String → Option String
  pathExists : String → Bool
  checksumOf : String → Option String

/-- Mirrors `Fetcher.checkTagExists` (src/main.go lines 89-99): runs
`git ls-remote --tags <url> <tag>` and tests `strings.Contains` on the output.
For a nonempty slash-free tag, ls-remote's pattern filter lists exactly the
refs whose final component equals the tag, so the combination reduces to
membership of the tag in the remote's tag list. -/
def checkTagExists (env : RemoteEnv) (owner repo tag : String) : Bool :=
  (env.tags owner repo).contains tag

/-- Mirrors `Fetcher.getLatestReleaseTag`: the tag name of the latest release,
propagating the client's failure as `none`. -/
def getLatestReleaseTag (env : RemoteEnv) (owner repo : String) : Option String :=
  (latestReleaseEndpoint (env.releases owner repo)).map (fun r => r.tagName)

/-- Mirrors `Fetcher.getLatestCommitSHA` (src/main.go lines 109-133): first
field of `git ls-remote <url> refs/heads/main` when that command succeeds
with nonempty output, else the same for `refs/heads/master`, else failure. -/
def getLatestCommitSHA (env : RemoteEnv) (owner repo : String) : Option String :=
  match env.mainTip owner repo with
  | some sha => some sha
  | none => env.masterTip owner repo

/-- Go `strings.TrimPrefix`: drops `p` from the front of `s` when present. -/
def trimLead (s p : String) : String :=
  if strStarts s p then strDropN s p.data.length else s

/-- The constraint-text stripping of `determineRefWithValidation`:
`strings.TrimPrefix` with `"^"`, then `"~"`, then `"="`. -/
def stripConstraintOps (s : String) : String :=
  trimLead (trimLead (trimLead s "^") "~") "="

/-! ## Manifest dependency (src/internal/manifest/manifest.go, src/main.go) -/

/-- Mirrors `manifest.Dependency`: the declared locator plus the selector
fields; absent TOML fields decode to `""`.  `useLatestCommit` is the
`UseLatestCommit` flag the fetcher in src/main.go reads (its manifest
declaration is in the `yuki_zpm.org/manifest` variant of the package, whose
source file is not under src/). -/
structure Dependency where
  git : String
  version : String
  branch : String
  tag : String
  rev : String
  useLatestCommit : Bool
  rootFile : String
  deriving DecidableEq, Repr

/-- Mirrors `Fetcher.determineRefWithValidation` (src/main.go lines 191-257).
Returns (retrieval reference, reported version, commit id), or an error. -/
def determineRefWithValidation (env : RemoteEnv) (owner repo : String) (dep : Dependency) :
    Except String (String × String × String) :=
  if dep.rev ≠ "" then .ok (dep.rev, dep.rev, dep.rev)
  else if dep.tag ≠ "" then .ok (dep.tag, dep.tag, "")
  else if dep.branch ≠ "" then .ok (dep.branch, dep.branch, "")
  else if dep.useLatestCommit then
    match getLatestCommitSHA env owner repo with
    | some sha => .ok (sha, sha, sha)
    | none => .error "failed to get latest commit"
  else if dep.version ≠ "" then
    if dep.version = "latest" then
      match getLatestReleaseTag env owner repo with
      | some t => .ok (t, t, "")
      | none => .error "failed to get latest release"
    else
      let bare := stripConstraintOps dep.version
      let possibleTags := [bare, "v" ++ bare]
      match possibleTags.find? (fun t => checkTagExists env owner repo t) with
      | some t => .ok (t, dep.version, "")
      | none =>
        .error ("no matching tag found for version " ++ dep.version ++
          " (tried: " ++ joinSep ", " possibleTags ++ ")")
  else
    match getLatestReleaseTag env owner repo with
    | some t =>
      if t = "" then
        match getLatestCommitSHA env owner repo with
        | some sha => .ok (sha, sha, sha)
        | none => .error "failed to get latest commit"
      else .ok (t, t, "")
    | none =>
      match getLatestCommitSHA env owner repo with
      | some sha => .ok (sha, sha, sha)
      | none => .error "failed to get latest commit"

/-! ## Fetch cache (src/cache/cache.go) -/

/-- Mirrors `cache.Entry`. -/
structure Entry where
  path : String
  checksum : String
  version : String
  commitSHA : String
  deriving DecidableEq, Repr

/-- The in-memory `entries` map of `cache.Cache`, as an association list
observed only through lookup (the Go map's extensional behavior). -/
abbrev CacheState := List (String × Entry)

/-- Map indexing `c.entries[key]`. -/
def cacheLookup (key : String) (c : CacheState) : Option Entry :=
  (c.find? (fun p => p.1 == key)).map (fun p => p.2)

/-- Go `delete(c.entries, key)`. -/
def cacheErase (key : String) (c : CacheState) : CacheState :=
  c.filter (fun p => p.1 != key)

/-- Mirrors `Cache.Set` (src/cache/cache.go lines 59-62): upsert the entry
(the `save()` persistence call is a filesystem effect outside the model). -/
def cacheSet (key : String) (e : Entry) (c : CacheState) : CacheState :=
  (key, e) :: cacheErase key c

/-- Mirrors `Cache.Get` (src/cache/cache.go lines 44-57): absent on a missing
key; on a present key whose stored path no longer exists on disk (`ex` is the
`os.Stat` existence check), the entry is deleted and absence reported;
otherwise the entry is returned.  Returns the entry-or-absence together with
the cache state after the call. -/
def cacheGet (key : String) (c : CacheState) (ex : String → Bool) :
    Option Entry × CacheState :=
  match cacheLookup key c with
  | none => (none, c)
  | some e => if ex e.path then (some e, c) else (none, cacheErase key c)

/-! ## Fetcher (src/main.go lines 259-314, key from src/internal/fetch/fetch.go) -/

/-- Mirrors `fetch.FetchResult` (src/main.go variant, with the commit id). -/
structure FetchResult where
  path : String
  checksum : String
  version : String
  commitSHA : String
  deriving DecidableEq, Repr

/-- Mirrors `generateCacheKey` (src/internal/fetch/fetch.go lines 194-211),
the in-tree counterpart of the `utils.GenerateCacheKey` used by src/main.go:
join owner, repo, selector kind and selector value with `"-"`. -/
def generateCacheKey (owner repo : String) (dep : Dependency) : String :=
  let parts := [owner, repo] ++
    (if dep.rev ≠ "" then ["rev", dep.rev]
     else if dep.tag ≠ "" then ["tag", dep.tag]
     else if dep.branch ≠ "" then ["branch", dep.branch]
     else if dep.version ≠ "" then ["version", dep.version]
     else ["latest"])
  joinSep "-" parts

/-- Mirrors `Fetcher.FetchDependency` (src/main.go lines 259-314): parse the
locator; consult the cache; on a miss determine the reference, clone
(`env.clone` is `cloneRepository`'s boundary work), checksum the tree, and
only then populate the cache.  Returns the result-or-error together with the
cache state after the call. -/
def FetchDependency (env : RemoteEnv) (name : String) (dep : Dependency)
    (c : CacheState) : Except String FetchResult × CacheState :=
  match parseRepoURL dep.git with
  | .error e => (.error ("invalid git URL for '" ++ name ++ "': " ++ e), c)
  | .ok (owner, repo) =>
    let key := generateCacheKey owner repo dep
    let looked := cacheGet key c env.pathExists
    match looked.1 with
    | some cached =>
      (.ok ⟨cached.path, cached.checksum, cached.version, cached.commitSHA⟩, looked.2)
    | none =>
      match determineRefWithValidation env owner repo dep with
      | .error e =>
        (.error ("failed to determine reference for '" ++ name ++ "': " ++ e), looked.2)
      | .ok (ref, ver, sha) =>
        match env.clone owner repo ref with
        | none => (.error ("failed to clone repository '" ++ owner ++ "/" ++ repo ++ "'"),
            looked.2)
        | some path =>
          match env.checksumOf path with
          | none => (.error ("failed to calculate checksum for '" ++ name ++ "'"), looked.2)
          | some cks =>
            (.ok ⟨path, cks, ver, sha⟩, cacheSet key ⟨path, cks, ver, sha⟩ looked.2)

/-! ## Resolver component (src/unnamed/part_003) -/

/-- Mirrors `github.Client.GetAvailableVersions`: the remote tags that parse
as semantic versions. -/
def getAvailableVersions (env : RemoteEnv) (owner repo : String) : List Version :=
  (env.tags owner repo).filterMap parseVersion

/-- Mirrors `Resolver.resolveVersion` (src/unnamed/part_003 lines 95-136):
rev/tag/branch verbatim; a version constraint is parsed and matched against
the remote's semantic-version tags through `FindBestMatch`; otherwise the
latest release tag, falling back to the literal `"main"`. -/
def resolveVersion (env : RemoteEnv) (owner repo : String) (dep : Dependency) :
    Except String String :=
  if dep.rev ≠ "" then .ok dep.rev
  else if dep.tag ≠ "" then .ok dep.tag
  else if dep.branch ≠ "" then .ok dep.branch
  else if dep.version ≠ "" then
    match parseConstraint dep.version with
    | none => .error ("invalid version constraint '" ++ dep.version ++ "'")
    | some c =>
      let versions := getAvailableVersions env owner repo
      if versions.isEmpty then
        .error ("no semantic versions found for " ++ owner ++ "/" ++ repo)
      else
        match findBestMatch c versions with
        | none => .error ("no version satisfies constraint '" ++ dep.version ++ "'")
        | some v => .ok (versionToString v)
  else
    match latestReleaseEndpoint (env.releases owner repo) with
    | some r => .ok r.tagName
    | none => .ok "main"

/-! ## Consistency checker (src/cli/sync.go lines 40-71) -/

/-- The drift message for a manifest-only dependency name. -/
def manifestOnlyMsg (n : String) : String :=
  "'" ++ n ++ "' is in manifest but not in lock file"

/-- The drift message for a lock-file-only package name. -/
def lockOnlyMsg (n : String) : String :=
  "'" ++ n ++ "' is in lock file but not in manifest"

/-- Mirrors the inconsistency scan of `runSync`: names declared in the
manifest but absent from the lock file, then names locked but not declared.
`runSync` reports success (and proceeds to validation) exactly when this
list is empty. -/
def syncInconsistencies (manifestNames lockNames : List String) : List String :=
  (manifestNames.filter (fun n => !(lockNames.contains n))).map manifestOnlyMsg ++
    (lockNames.filter (fun n => !(manifestNames.contains n))).map lockOnlyMsg

/-! ## Tree checksum (src/integrity/integrity.go) -/

/-- Byte-lexicographic comparison of character lists, the order `sort.Strings`
sorts by (identical to character order on the ASCII paths at hand). -/
def charListLe : List Char → List Char → Bool
  | [], _ => true
  | _ :: _, [] => false
  | a :: as, b :: bs => if a = b then charListLe as bs else decide (a < b)

/-- The path order used by the checksum's `sort.Strings`. -/
def strLe (a b : String) : Prop := charListLe a.data b.data = true

instance : DecidableRel strLe := fun a b => by unfold strLe; infer_instance

/-- A directory tree, abstracted to its regular files: (relative path,
content bytes) pairs.  Paths use `/` as separator and are unique. -/
abbrev FileTree := List (String × List Nat)

/-- The skip test of `CalculateDirectoryChecksum`'s walk: a path is excluded
when any `/`-separated component equals `.git` (this also covers the
`filepath.Base(path) == ".git"` test, since the base is a component). -/
def hasGitComponent (p : String) : Bool :=
  (splitOnChar '/' p.data).contains ".git".data

/-- The walk's file filter: keep a regular file unless its path has a `.git`
component. -/
def keepFile (pc : String × List Nat) : Bool := !(hasGitComponent pc.1)

/-- Reading the file at path `p` of the tree. -/
def treeLookup (p : String) (tree : FileTree) : Option (List Nat) :=
  (tree.find? (fun x => x.1 == p)).map (fun x => x.2)

/-- The code points of a string, its bytes on the ASCII data at hand. -/
def strBytes (s : String) : List Nat := s.data.map Char.toNat

/-- One hexadecimal digit, lowercase as Go's `%x`. -/
def hexCharOf (n : Nat) : Char :=
  if n < 10 then Char.ofNat (48 + n) else Char.ofNat (87 + n)

/-- Go `fmt.Sprintf("%x", bytes)`: two lowercase hex digits per byte. -/
def hexOfBytes (bs : List Nat) : String :=
  ⟨bs.flatMap (fun b => [hexCharOf (b / 16 % 16), hexCharOf (b % 16)])⟩

/-- Mirrors `integrity.CalculateFileChecksum`: the hex text of the SHA-256
digest of the file's bytes.  The digest function is a parameter `sha256`
(any fixed function; the claims do not depend on its internals). -/
def CalculateFileChecksum (sha256 : List Nat → List Nat) (content : List Nat) : String :=
  hexOfBytes (sha256 content)

/-- Mirrors `integrity.CalculateDirectoryChecksum` (src/integrity/integrity.go
lines 29-83): walk collects the regular files outside `.git` components, the
paths are sorted (`sort.Strings`), and the digest is taken over the
concatenation, per file in sorted order, of the relative path, a null byte,
the hex text of the file's own digest, and a second null byte. -/
def CalculateDirectoryChecksum (sha256 : List Nat → List Nat) (tree : FileTree) : String :=
  let files := List.insertionSort strLe ((tree.filter keepFile).map Prod.fst)
  let feed := files.flatMap (fun p =>
    strBytes p ++ [0] ++
      strBytes (CalculateFileChecksum sha256 ((treeLookup p tree).getD [])) ++ [0])
  hexOfBytes (sha256 feed)

/-- New-states-only-shrink order on cache states: every entry readable from
`c1` is readable, unchanged, from `c2`. -/
def cacheSub (c1 c2 : CacheState) : Prop :=
  ∀ k v, cacheLookup k c1 = some v → cacheLookup k c2 = some v

/-! ## Concrete fixtures used by witnesses and counterexamples -/

/-- A remote with nothing on it and no filesystem state. -/
def emptyEnv : RemoteEnv :=
  ⟨fun _ _ => [], fun _ _ => [], fun _ _ => none, fun _ _ => none,
    fun _ _ _ => none, fun _ => false, fun _ => none⟩

/-- A dependency on `owner/repo` with no selector of any kind. -/
def noSelectorDep : Dependency := ⟨"owner/repo", "", "", "", "", false, ""⟩

/-- The remote of the end-to-end scenario: tags `1.0.0`, `1.5.0`, `v2.0.0`,
no releases; cloning succeeds only at reference `1.0.0`. -/
def e2eEnv : RemoteEnv :=
  { emptyEnv with
    tags := fun _ _ => ["1.0.0", "1.5.0", "v2.0.0"],
    clone := fun _ _ ref =>
      if ref = "1.0.0" then some "/cache/repos/owner/repo/1.0.0" else none,
    checksumOf := fun p =>
      if p = "/cache/repos/owner/repo/1.0.0" then some "c0ffee" else none }

/-- The dependency of the end-to-end scenario: `owner/repo` at `^1.0.0`. -/
def e2eDep : Dependency := { noSelectorDep with version := "^1.0.0" }

/-- A remote whose newest release is a prerelease, followed by two
ordinary releases. -/
def sentinelEnv : RemoteEnv :=
  { emptyEnv with
    releases := fun _ _ =>
      [⟨"v9.9.9-rc1", false, true⟩, ⟨"v2.0.0", false, false⟩, ⟨"v1.0.0", false, false⟩] }

/-- A dependency declared at the sentinel version `latest`. -/
def sentinelDep : Dependency := { noSelectorDep with version := "latest" }

/-- A remote that only has the `v`-prefixed spelling of the probed tag. -/
def vOnlyEnv : RemoteEnv := { emptyEnv with tags := fun _ _ => ["v0.10.0"] }

/-- A dependency declared at the concrete constraint `^0.10.0`. -/
def caretDep : Dependency := { noSelectorDep with version := "^0.10.0" }

/-- A remote with no releases whose `main` branch tip is known. -/
def mainTipEnv : RemoteEnv :=
  { emptyEnv with
    mainTip := fun _ _ => some "a3f5c9d1e2b4a6c8d0e2f4a6b8c0d2e4f6a8b0c2" }

/-- A dependency with a malformed locator (no slash). -/
def badGitDep : Dependency := { noSelectorDep with git := "nogit" }

/-- A dependency pinned to a tag while also declaring a constraint. -/
def tagAndConstraintDep : Dependency :=
  { noSelectorDep with tag := "v1.0.0", version := "^2.0.0" }

/-- A two-file tree without version-control metadata. -/
def plainTree : FileTree := [("src/a.zig", [1, 2, 3]), ("b.txt", [4])]

/-- The same files enumerated in another order, with a `.git` directory
injected at the root and another nested under `src/`. -/
def gitNoiseTree : FileTree :=
  [("b.txt", [4]), (".git/config", [9]), ("src/a.zig", [1, 2, 3]), ("src/.git/x", [8])]

/-- A cache entry whose local path is `/p0`. -/
def wEntry : Entry := ⟨"/p0", "cafe", "1.2.3", ""⟩

/-! ## Order properties of the path comparison -/

theorem charListLe_total : ∀ as bs : List Char, charListLe as bs = true ∨ charListLe bs as = true
  | [], _ => Or.inl rfl
  | _ :: _, [] => Or.inr rfl
  | a :: as, b :: bs => by
    by_cases h : a = b
    · subst h
      simpa [charListLe] using charListLe_total as bs
    · have h2 : ¬ b = a := fun e => h e.symm
      rcases lt_trichotomy a b with hlt | heq | hgt
      · exact Or.inl (by simp [charListLe, h, hlt])
      · exact absurd heq h
      · exact Or.inr (by simp [charListLe, h2, hgt])

theorem charListLe_trans : ∀ as bs cs : List Char,
    charListLe as bs = true → charListLe bs cs = true → charListLe as cs = true
  | [], _, _, _, _ => rfl
  | a :: as, [], _, h1, _ => by simp [charListLe] at h1
  | a :: as, b :: bs, [], _, h2 => by simp [charListLe] at h2
  | a :: as, b :: bs, c :: cs, h1, h2 => by
    by_cases hab : a = b <;> by_cases hbc : b = c
    · subst hab; subst hbc
      simp only [charListLe, if_pos rfl] at h1 h2 ⊢
      exact charListLe_trans as bs cs h1 h2
    · subst hab
      simpa [charListLe, hbc] using h2
    · subst hbc
      simpa [charListLe, hab] using h1
    · simp only [charListLe, if_neg hab] at h1
      simp only [charListLe, if_neg hbc] at h2
      have hac : a < c := lt_trans (of_decide_eq_true h1) (of_decide_eq_true h2)
      have hne : ¬ a = c := ne_of_lt hac
      simp [charListLe, hne, hac]

theorem charListLe_antisymm : ∀ as bs : List Char,
    charListLe as bs = true → charListLe bs as = true → as = bs
  | [], [], _, _ => rfl
  | [], _ :: _, _, h2 => by simp [charListLe] at h2
  | _ :: _, [], h1, _ => by simp [charListLe] at h1
  | a :: as, b :: bs, h1, h2 => by
    by_cases hab : a = b
    · subst hab
      simp only [charListLe, if_pos rfl] at h1 h2
      exact congrArg (a :: ·) (charListLe_antisymm as bs h1 h2)
    · have hba : ¬ b = a := fun e => hab e.symm
      simp only [charListLe, if_neg hab] at h1
      simp only [charListLe, if_neg hba] at h2
      exact absurd (of_decide_eq_true h2) (lt_asymm (of_decide_eq_true h1))

instance : IsTotal String strLe :=
  ⟨fun a b => by unfold strLe; exact charListLe_total a.data b.data⟩

instance : IsTrans String strLe :=
  ⟨fun a b c h1 h2 => charListLe_trans a.data b.data c.data h1 h2⟩

instance : IsAntisymm String strLe :=
  ⟨fun a b h1 h2 => by
    cases a with
    | mk da =>
      cases b with
      | mk db => exact congrArg String.mk (charListLe_antisymm da db h1 h2)⟩

/-! ## Cache state lemmas -/

theorem cacheLookup_erase_self (k : String) : ∀ c : CacheState, cacheLookup k (cacheErase k c) = none
  | [] => rfl
  | (q, e) :: t => by
    by_cases h : q = k
    · have h1 : (q != k) = false := by simp [bne, h]
      rw [cacheErase, List.filter_cons, h1, if_neg Bool.false_ne_true]
      exact cacheLookup_erase_self k t
    · have h1 : (q != k) = true := by simp [bne, h]
      rw [cacheErase, List.filter_cons, h1, if_pos rfl]
      rw [show ∀ t2, cacheLookup k ((q, e) :: t2) = cacheLookup k t2 from fun t2 => by
        simp [cacheLookup, List.find?, beq_false_of_ne h]]
      exact cacheLookup_erase_self k t

theorem cacheLookup_cons_ne {k2 q : String} {e : Entry} (h : q ≠ k2) (t : CacheState) :
    cacheLookup k2 ((q, e) :: t) = cacheLookup k2 t := by
  simp [cacheLookup, List.find?, beq_false_of_ne h]

theorem cacheLookup_cons_self {k2 q : String} {e : Entry} (h : q = k2) (t : CacheState) :
    cacheLookup k2 ((q, e) :: t) = some e := by
  simp [cacheLookup, List.find?, h]

theorem cacheLookup_erase_ne {k2 k : String} (h : k2 ≠ k) :
    ∀ c : CacheState, cacheLookup k2 (cacheErase k c) = cacheLookup k2 c
  | [] => rfl
  | (q, e) :: t => by
    by_cases hp : q = k
    · have h1 : (q != k) = false := by simp [bne, hp]
      rw [cacheErase, List.filter_cons, h1, if_neg Bool.false_ne_true]
      rw [cacheLookup_cons_ne (by rw [hp]; exact fun ee => h ee.symm) t]
      exact cacheLookup_erase_ne h t
    · have h1 : (q != k) = true := by simp [bne, hp]
      rw [cacheErase, List.filter_cons, h1, if_pos rfl]
      by_cases hq : q = k2
      · rw [cacheLookup_cons_self hq, cacheLookup_cons_self hq]
      · rw [cacheLookup_cons_ne hq, cacheLookup_cons_ne hq]
        exact cacheLookup_erase_ne h t

theorem cacheLookup_set_self (k : String) (e : Entry) (c : CacheState) :
    cacheLookup k (cacheSet k e c) = some e := by
  rw [cacheSet, cacheLookup_cons_self rfl]

theorem cacheLookup_set_ne {k2 k : String} (h : k2 ≠ k) (e : Entry) (c : CacheState) :
    cacheLookup k2 (cacheSet k e c) = cacheLookup k2 c := by
  rw [cacheSet, cacheLookup_cons_ne (fun ee => h ee.symm), cacheLookup_erase_ne h]

theorem cacheSub_refl (c : CacheState) : cacheSub c c := fun _ _ h => h

theorem cacheSub_erase (k : String) (c : CacheState) : cacheSub (cacheErase k c) c := by
  intro k2 v hv
  by_cases h : k2 = k
  · rw [h, cacheLookup_erase_self] at hv
    exact absurd hv (by simp)
  · rwa [cacheLookup_erase_ne h] at hv

theorem cacheGet_none {k : String} {c : CacheState} {ex : String → Bool}
    (hl : cacheLookup k c = none) : cacheGet k c ex = (none, c) := by
  unfold cacheGet
  rw [hl]

theorem cacheGet_live {k : String} {c : CacheState} {ex : String → Bool} {e : Entry}
    (hl : cacheLookup k c = some e) (hex : ex e.path = true) :
    cacheGet k c ex = (some e, c) := by
  unfold cacheGet
  rw [hl]
  show (if ex e.path = true then (some e, c) else (none, cacheErase k c)) = (some e, c)
  rw [if_pos hex]

theorem cacheGet_stale {k : String} {c : CacheState} {ex : String → Bool} {e : Entry}
    (hl : cacheLookup k c = some e) (hex : ex e.path = false) :
    cacheGet k c ex = (none, cacheErase k c) := by
  unfold cacheGet
  rw [hl]
  show (if ex e.path = true then (some e, c) else (none, cacheErase k c)) = _
  rw [hex, if_neg Bool.false_ne_true]

theorem cacheGet_snd_sub (k : String) (c : CacheState) (ex : String → Bool) :
    cacheSub (cacheGet k c ex).2 c := by
  rcases hl : cacheLookup k c with _ | e
  · rw [cacheGet_none hl]
    exact cacheSub_refl c
  · cases hex : ex e.path
    · rw [cacheGet_stale hl hex]
      exact cacheSub_erase k c
    · rw [cacheGet_live hl hex]
      exact cacheSub_refl c

theorem cacheGet_hit_state {k : String} {c : CacheState} {ex : String → Bool} {e : Entry}
    (h : (cacheGet k c ex).1 = some e) : (cacheGet k c ex).2 = c := by
  rcases hl : cacheLookup k c with _ | e2
  · rw [cacheGet_none hl] at h
    simp at h
  · cases hex : ex e2.path
    · rw [cacheGet_stale hl hex] at h
      simp at h
    · rw [cacheGet_live hl hex]

theorem cacheGet_fst_some {k : String} {c : CacheState} {ex : String → Bool} {e : Entry}
    (h : (cacheGet k c ex).1 = some e) : cacheLookup k c = some e := by
  rcases hl : cacheLookup k c with _ | e2
  · rw [cacheGet_none hl] at h
    simp at h
  · cases hex : ex e2.path
    · rw [cacheGet_stale hl hex] at h
      simp at h
    · rw [cacheGet_live hl hex] at h
      simp only [Option.some.injEq] at h
      exact congrArg some h

/-! ## List helpers -/

theorem headq_mem {α : Type} {l : List α} {a : α} (h : l.head? = some a) : a ∈ l := by
  cases l with
  | nil => cases h
  | cons x xs =>
    simp only [List.head?] at h
    rw [← Option.some.inj h]
    exact List.mem_cons_self x xs

theorem treeLookup_eq_of_mem :
    ∀ {t : FileTree} {p : String} {c : List Nat},
      (t.map Prod.fst).Nodup → (p, c) ∈ t → treeLookup p t = some c
  | [], _, _, _, hm => absurd hm (List.not_mem_nil _)
  | (q, d) :: rest, p, c, hnd, hm => by
    rw [List.map_cons] at hnd
    rcases List.mem_cons.mp hm with he | ht
    · rcases Prod.mk.inj he.symm with ⟨h1, h2⟩
      subst h1
      subst h2
      simp [treeLookup, List.find?]
    · have hq : q ≠ p := by
        intro he2
        subst he2
        exact (List.nodup_cons.mp hnd).1
          (by simpa using List.mem_map_of_mem Prod.fst ht)
      have hb : (q == p) = false := beq_false_of_ne hq
      simp only [treeLookup, List.find?, hb]
      exact treeLookup_eq_of_mem (List.nodup_cons.mp hnd).2 ht

/-! ## Claim theorems -/

/-- Claim C10: the cache key joins owner, repository, selector kind and
selector value with `"-"` and no escaping, so the key function is not
injective: owner `a` with repo `b-c` and owner `a-b` with repo `c`, under
the same (empty) selector, share the key `a-b-c-latest`. -/
theorem generateCacheKey_collision :
    generateCacheKey "a" "b-c" noSelectorDep = generateCacheKey "a-b" "c" noSelectorDep ∧
    generateCacheKey "a" "b-c" noSelectorDep = "a-b-c-latest" ∧
    ("a", "b-c") ≠ (("a-b", "c") : String × String) :=
  ⟨rfl, rfl, by decide⟩

/-- Claim C6: selector precedence in `determineRefWithValidation` — an
explicit revision wins over everything, a tag over a branch and over any
version constraint, a branch over any version constraint; in each case the
selector is used verbatim as both retrieval reference and reported version,
independently of the remote and of the declared constraint. -/
theorem determineRef_selector_precedence (env : RemoteEnv) (owner repo : String)
    (dep : Dependency) :
    (dep.rev ≠ "" →
      determineRefWithValidation env owner repo dep = .ok (dep.rev, dep.rev, dep.rev)) ∧
    (dep.rev = "" → dep.tag ≠ "" →
      determineRefWithValidation env owner repo dep = .ok (dep.tag, dep.tag, "")) ∧
    (dep.rev = "" → dep.tag = "" → dep.branch ≠ "" →
      determineRefWithValidation env owner repo dep = .ok (dep.branch, dep.branch, "")) := by
  refine ⟨fun h => ?_, fun h1 h2 => ?_, fun h1 h2 h3 => ?_⟩
  · simp [determineRefWithValidation, h]
  · simp [determineRefWithValidation, h1, h2]
  · simp [determineRefWithValidation, h1, h2, h3]

/-- Witness for C6: a dependency with both `tag="v1.0.0"` and constraint
`"^2.0.0"` resolves to the tag, the constraint ignored. -/
theorem determineRef_selector_precedence_witness :
    determineRefWithValidation emptyEnv "o" "r" tagAndConstraintDep =
      .ok ("v1.0.0", "v1.0.0", "") :=
  (determineRef_selector_precedence emptyEnv "o" "r" tagAndConstraintDep).2.1
    rfl (by decide)

/-- Claim C8: cache round-trip with self-healing eviction — after
`Set(k, e)`, `Get(k)` returns `e` while `e.path` exists on disk; when the
path does not exist, `Get(k)` reports absent and evicts the entry, and a
subsequent `Get(k)` still reports absent without changing the state. -/
theorem cache_roundtrip_self_healing (c : CacheState) (k : String) (e : Entry)
    (ex : String → Bool) :
    (ex e.path = true → cacheGet k (cacheSet k e c) ex = (some e, cacheSet k e c)) ∧
    (ex e.path = false →
      cacheGet k (cacheSet k e c) ex = (none, cacheErase k (cacheSet k e c)) ∧
      cacheGet k (cacheErase k (cacheSet k e c)) ex =
        (none, cacheErase k (cacheSet k e c))) := by
  constructor
  · intro hex
    exact cacheGet_live (cacheLookup_set_self k e c) hex
  · intro hex
    exact ⟨cacheGet_stale (cacheLookup_set_self k e c) hex,
      cacheGet_none (cacheLookup_erase_self k _)⟩

/-- Witness for C8: a concrete entry whose path never exists is evicted and
stays absent. -/
theorem cache_roundtrip_self_healing_witness :
    cacheGet "k" (cacheSet "k" wEntry []) (fun _ => false) =
      (none, cacheErase "k" (cacheSet "k" wEntry [])) :=
  ((cache_roundtrip_self_healing [] "k" wEntry (fun _ => false)).2 rfl).1

/-- Claim C1 (counterexample): for the manifest dependency
`{repo: "owner/repo", version: "^1.0.0"}` against remote tags
`{"1.0.0", "1.5.0", "v2.0.0"}`, the fetch pipeline does NOT resolve to
`1.5.0`: the reference actually retrieved is `1.0.0` (in `e2eEnv` cloning
succeeds at reference `1.0.0` only, and the fetch succeeds), and the
reported version is the literal constraint text `^1.0.0`. -/
theorem fetch_pipeline_caret_counterexample :
    determineRefWithValidation e2eEnv "owner" "repo" e2eDep =
      Except.ok ("1.0.0", "^1.0.0", "") ∧
    (FetchDependency e2eEnv "dep" e2eDep []).1 =
      Except.ok ⟨"/cache/repos/owner/repo/1.0.0", "c0ffee", "^1.0.0", ""⟩ ∧
    ("1.0.0" : String) ≠ "1.5.0" ∧ ("^1.0.0" : String) ≠ "1.5.0" :=
  ⟨rfl, rfl, by decide, by decide⟩

/-- Claim C1 (amended): for that manifest and remote, the pipeline resolves
the retrieval reference to `1.0.0` — the literal constraint version, the
first probed tag spelling that exists — and reports the version as the
constraint text `^1.0.0`; the resolver component's best-match over the same
tags yields `1.5.0`, but that value is not the fetch path's retrieval
reference. -/
theorem fetch_pipeline_caret_literal_resolution :
    determineRefWithValidation e2eEnv "owner" "repo" e2eDep =
      Except.ok ("1.0.0", "^1.0.0", "") ∧
    (FetchDependency e2eEnv "dep" e2eDep []).1 =
      Except.ok ⟨"/cache/repos/owner/repo/1.0.0", "c0ffee", "^1.0.0", ""⟩ ∧
    resolveVersion e2eEnv "owner" "repo" e2eDep = Except.ok "1.5.0" :=
  ⟨rfl, rfl, rfl⟩

theorem bang_contains_false {l : List String} {n : String} :
    ((!l.contains n) = false) ↔ n ∈ l := by
  simp [List.elem_iff]

theorem bang_contains_true {l : List String} {n : String} :
    ((!l.contains n) = true) ↔ n ∉ l := by
  simp [List.elem_iff]

/-- Claim C9: the consistency check computes exactly the symmetric
difference of the dependency-name sets — it reports no inconsistencies if
and only if the manifest's and the lock file's name sets coincide, each
issue names a dependency present on exactly one side, and for manifest
`{A, B}` against lock file `{B, C}` the issues are exactly the two quoted
messages. -/
theorem sync_symmetric_difference :
    (∀ m l : List String, syncInconsistencies m l = [] ↔ ∀ n, n ∈ m ↔ n ∈ l) ∧
    (∀ (m l : List String) (s : String), s ∈ syncInconsistencies m l ↔
      ((∃ n, n ∈ m ∧ n ∉ l ∧ s = manifestOnlyMsg n) ∨
        (∃ n, n ∈ l ∧ n ∉ m ∧ s = lockOnlyMsg n))) ∧
    syncInconsistencies ["A", "B"] ["B", "C"] =
      ["'A' is in manifest but not in lock file",
        "'C' is in lock file but not in manifest"] := by
  refine ⟨?_, ?_, rfl⟩
  · intro m l
    simp only [syncInconsistencies, List.append_eq_nil, List.map_eq_nil_iff,
      List.filter_eq_nil_iff, bang_contains_true]
    constructor
    · rintro ⟨h1, h2⟩ n
      exact ⟨fun hn => not_not.mp (h1 n hn), fun hn => not_not.mp (h2 n hn)⟩
    · intro h
      exact ⟨fun n hn => not_not.mpr ((h n).mp hn), fun n hn => not_not.mpr ((h n).mpr hn)⟩
  · intro m l s
    simp only [syncInconsistencies, List.mem_append, List.mem_map, List.mem_filter,
      bang_contains_true]
    constructor
    · rintro (⟨n, ⟨hnm, hnl⟩, hs⟩ | ⟨n, ⟨hnl, hnm⟩, hs⟩)
      · exact Or.inl ⟨n, hnm, hnl, hs.symm⟩
      · exact Or.inr ⟨n, hnl, hnm, hs.symm⟩
    · rintro (⟨n, hnm, hnl, hs⟩ | ⟨n, hnl, hnm, hs⟩)
      · exact Or.inl ⟨n, ⟨hnm, hnl⟩, hs.symm⟩
      · exact Or.inr ⟨n, ⟨hnl, hnm⟩, hs.symm⟩

/-- Claim C3: for a dependency whose constraint is the sentinel `latest`
(and no revision/tag/branch and no latest-commit request), reference
resolution queries the remote's latest-release endpoint and uses the
returned non-draft, non-prerelease release tag verbatim as both the
retrieval reference and the reported version; a draft or prerelease release
is never selected. -/
theorem determineRef_latest_sentinel (env : RemoteEnv) (owner repo : String)
    (dep : Dependency) (hrev : dep.rev = "") (htag : dep.tag = "")
    (hbr : dep.branch = "") (hlc : dep.useLatestCommit = false)
    (hver : dep.version = "latest") :
    ∀ ref ver sha, determineRefWithValidation env owner repo dep = .ok (ref, ver, sha) →
      ∃ r, r ∈ env.releases owner repo ∧ r.draft = false ∧ r.prerelease = false ∧
        ref = r.tagName ∧ ver = r.tagName ∧ sha = "" := by
  intro ref ver sha h
  simp only [determineRefWithValidation, hrev, htag, hbr, hlc, hver] at h
  rcases hrel : latestReleaseEndpoint (env.releases owner repo) with _ | r
  · rw [getLatestReleaseTag, hrel] at h
    simp at h
  · rw [getLatestReleaseTag, hrel] at h
    simp only [Option.map_some'] at h
    have hfr := headq_mem hrel
    rcases List.mem_filter.mp hfr with ⟨hmem, hflags⟩
    rcases Bool.and_eq_true_iff.mp hflags with ⟨hd, hp⟩
    rcases Except.ok.inj h with hh
    rcases Prod.mk.inj hh with ⟨h1, h23⟩
    rcases Prod.mk.inj h23 with ⟨h2, h3⟩
    exact ⟨r, hmem, by simpa using hd, by simpa using hp, h1.symm, h2.symm, h3.symm⟩

/-- Witness for C3: against a remote whose newest release is a prerelease,
the `latest` sentinel selects the next release `v2.0.0`, which is neither
draft nor prerelease. -/
theorem determineRef_latest_sentinel_witness :
    ∃ r, r ∈ sentinelEnv.releases "owner" "repo" ∧ r.draft = false ∧
      r.prerelease = false ∧ ("v2.0.0" : String) = r.tagName ∧
      ("v2.0.0" : String) = r.tagName ∧ ("" : String) = "" :=
  determineRef_latest_sentinel sentinelEnv "owner" "repo" sentinelDep
    rfl rfl rfl rfl rfl "v2.0.0" "v2.0.0" "" rfl

/-- Claim C4: for a dependency whose only selector is a concrete version
constraint, reference resolution strips the leading `^`/`~`/`=` operator
text, probes the remote for a tag named exactly the bare string and then
for its `v`-prefixed spelling, in that order, uses the first tag that
exists as the retrieval reference (reporting the original constraint text
as the version), and fails with a "no matching tag" error when neither
exists. -/
theorem determineRef_concrete_constraint (env : RemoteEnv) (owner repo : String)
    (dep : Dependency) (hrev : dep.rev = "") (htag : dep.tag = "")
    (hbr : dep.branch = "") (hlc : dep.useLatestCommit = false)
    (hv1 : dep.version ≠ "") (hv2 : dep.version ≠ "latest") :
    ((env.tags owner repo).contains (stripConstraintOps dep.version) = true →
      determineRefWithValidation env owner repo dep =
        .ok (stripConstraintOps dep.version, dep.version, "")) ∧
    ((env.tags owner repo).contains (stripConstraintOps dep.version) = false →
      (env.tags owner repo).contains ("v" ++ stripConstraintOps dep.version) = true →
      determineRefWithValidation env owner repo dep =
        .ok ("v" ++ stripConstraintOps dep.version, dep.version, "")) ∧
    ((env.tags owner repo).contains (stripConstraintOps dep.version) = false →
      (env.tags owner repo).contains ("v" ++ stripConstraintOps dep.version) = false →
      determineRefWithValidation env owner repo dep =
        .error ("no matching tag found for version " ++ dep.version ++ " (tried: " ++
          joinSep ", " [stripConstraintOps dep.version,
            "v" ++ stripConstraintOps dep.version] ++ ")")) := by
  refine ⟨fun hc1 => ?_, fun hc1 hc2 => ?_, fun hc1 hc2 => ?_⟩
  · have hm1 : stripConstraintOps dep.version ∈ env.tags owner repo := by
      simpa [List.elem_iff] using hc1
    simp [determineRefWithValidation, hrev, htag, hbr, hlc, hv1, hv2,
      List.find?, checkTagExists, hm1]
  · have hm1 : stripConstraintOps dep.version ∉ env.tags owner repo := by
      simpa [List.elem_iff] using hc1
    have hm2 : ("v" ++ stripConstraintOps dep.version) ∈ env.tags owner repo := by
      simpa [List.elem_iff] using hc2
    simp [determineRefWithValidation, hrev, htag, hbr, hlc, hv1, hv2,
      List.find?, checkTagExists, hm1, hm2]
  · have hm1 : stripConstraintOps dep.version ∉ env.tags owner repo := by
      simpa [List.elem_iff] using hc1
    have hm2 : ("v" ++ stripConstraintOps dep.version) ∉ env.tags owner repo := by
      simpa [List.elem_iff] using hc2
    simp [determineRefWithValidation, hrev, htag, hbr, hlc, hv1, hv2,
      List.find?, checkTagExists, hm1, hm2]

/-- Witness for C4: constraint `^0.10.0` against a remote having only
`v0.10.0` — the bare spelling is absent, the `v`-prefixed probe wins. -/
theorem determineRef_concrete_constraint_witness :
    determineRefWithValidation vOnlyEnv "owner" "repo" caretDep =
      Except.ok ("v0.10.0", "^0.10.0", "") :=
  (determineRef_concrete_constraint vOnlyEnv "owner" "repo" caretDep
    rfl rfl rfl rfl (by decide) (by decide)).2.1 (by decide) (by decide)

/-- Claim C5: for a dependency with no selector of any kind, reference
resolution uses the remote's latest release tag; when no (usable) release
exists it falls back to the tip commit of the default branch, trying `main`
then `master`, and then both the reported version and the retrieval
reference (and the recorded commit id) equal the full commit id. -/
theorem determineRef_no_selector (env : RemoteEnv) (owner repo : String)
    (dep : Dependency) (hrev : dep.rev = "") (htag : dep.tag = "")
    (hbr : dep.branch = "") (hlc : dep.useLatestCommit = false)
    (hver : dep.version = "") :
    (∀ t, getLatestReleaseTag env owner repo = some t → t ≠ "" →
      determineRefWithValidation env owner repo dep = .ok (t, t, "")) ∧
    (getLatestReleaseTag env owner repo = none ∨
        getLatestReleaseTag env owner repo = some "" →
      (∀ sha, env.mainTip owner repo = some sha →
        determineRefWithValidation env owner repo dep = .ok (sha, sha, sha)) ∧
      (env.mainTip owner repo = none →
        ∀ sha, env.masterTip owner repo = some sha →
          determineRefWithValidation env owner repo dep = .ok (sha, sha, sha))) := by
  constructor
  · intro t hrel ht
    simp [determineRefWithValidation, hrev, htag, hbr, hlc, hver, hrel, ht]
  · intro hrel
    constructor
    · intro sha hmain
      rcases hrel with hrel | hrel <;>
        simp [determineRefWithValidation, hrev, htag, hbr, hlc, hver, hrel,
          getLatestCommitSHA, hmain]
    · intro hmain sha hmaster
      rcases hrel with hrel | hrel <;>
        simp [determineRefWithValidation, hrev, htag, hbr, hlc, hver, hrel,
          getLatestCommitSHA, hmain, hmaster]

/-- Witness for C5: a remote with no releases and `main` tip
`a3f5c9d1e2b4a6c8d0e2f4a6b8c0d2e4f6a8b0c2` resolves reference, version and
commit id to that commit. -/
theorem determineRef_no_selector_witness :
    determineRefWithValidation mainTipEnv "owner" "repo" noSelectorDep =
      .ok ("a3f5c9d1e2b4a6c8d0e2f4a6b8c0d2e4f6a8b0c2",
        "a3f5c9d1e2b4a6c8d0e2f4a6b8c0d2e4f6a8b0c2",
        "a3f5c9d1e2b4a6c8d0e2f4a6b8c0d2e4f6a8b0c2") :=
  ((determineRef_no_selector mainTipEnv "owner" "repo" noSelectorDep
    rfl rfl rfl rfl rfl).2 (Or.inl rfl)).1 _ rfl

/-- Claim C2: fetch atomicity — whenever `FetchDependency` fails (locator
parsing, reference determination, clone, or checksum) it returns an error
and, by type, no `FetchResult`, and the cache after the call contains no
entry the cache before it did not already contain; and any entry readable
after a successful call is either a pre-existing one or the one written
after the clone and the checksum both fully succeeded. -/
theorem fetchDependency_atomicity (env : RemoteEnv) (name : String) (dep : Dependency)
    (c : CacheState) :
    (∀ e c2, FetchDependency env name dep c = (Except.error e, c2) → cacheSub c2 c) ∧
    (∀ r c2, FetchDependency env name dep c = (Except.ok r, c2) →
      ∀ k v, cacheLookup k c2 = some v →
        cacheLookup k c = some v ∨
        ∃ owner repo ref ver sha,
          parseRepoURL dep.git = Except.ok (owner, repo) ∧
          determineRefWithValidation env owner repo dep = Except.ok (ref, ver, sha) ∧
          env.clone owner repo ref = some v.path ∧
          env.checksumOf v.path = some v.checksum) := by
  constructor
  · intro e c2 h
    rcases hp : parseRepoURL dep.git with e0 | ⟨owner, repo⟩
    · simp only [FetchDependency, hp] at h
      rcases Prod.mk.inj h with ⟨_, hc⟩
      rw [← hc]
      exact cacheSub_refl c
    · simp only [FetchDependency, hp] at h
      rcases hl : (cacheGet (generateCacheKey owner repo dep) c env.pathExists).1 with _ | cached
      · simp only [hl] at h
        rcases hd : determineRefWithValidation env owner repo dep with er | ⟨ref, ver, sha⟩
        · simp only [hd] at h
          rcases Prod.mk.inj h with ⟨_, hc⟩
          rw [← hc]
          exact cacheGet_snd_sub _ _ _
        · simp only [hd] at h
          rcases hcl : env.clone owner repo ref with _ | path
          · simp only [hcl] at h
            rcases Prod.mk.inj h with ⟨_, hc⟩
            rw [← hc]
            exact cacheGet_snd_sub _ _ _
          · simp only [hcl] at h
            rcases hck : env.checksumOf path with _ | cks
            · simp only [hck] at h
              rcases Prod.mk.inj h with ⟨_, hc⟩
              rw [← hc]
              exact cacheGet_snd_sub _ _ _
            · simp only [hck] at h
              rcases Prod.mk.inj h with ⟨hbad, _⟩
              cases hbad
      · simp only [hl] at h
        rcases Prod.mk.inj h with ⟨hbad, _⟩
        cases hbad
  · intro r c2 h k v hkv
    rcases hp : parseRepoURL dep.git with e0 | ⟨owner, repo⟩
    · simp only [FetchDependency, hp] at h
      rcases Prod.mk.inj h with ⟨hbad, _⟩
      cases hbad
    · simp only [FetchDependency, hp] at h
      rcases hl : (cacheGet (generateCacheKey owner repo dep) c env.pathExists).1 with _ | cached
      · simp only [hl] at h
        rcases hd : determineRefWithValidation env owner repo dep with er | ⟨ref, ver, sha⟩
        · simp only [hd] at h
          rcases Prod.mk.inj h with ⟨hbad, _⟩
          cases hbad
        · simp only [hd] at h
          rcases hcl : env.clone owner repo ref with _ | path
          · simp only [hcl] at h
            rcases Prod.mk.inj h with ⟨hbad, _⟩
            cases hbad
          · simp only [hcl] at h
            rcases hck : env.checksumOf path with _ | cks
            · simp only [hck] at h
              rcases Prod.mk.inj h with ⟨hbad, _⟩
              cases hbad
            · simp only [hck] at h
              rcases Prod.mk.inj h with ⟨_, hc⟩
              rw [← hc] at hkv
              by_cases hk : k = generateCacheKey owner repo dep
              · rw [hk, cacheLookup_set_self] at hkv
                rcases Option.some.inj hkv with hv
                refine Or.inr ⟨owner, repo, ref, ver, sha, by simp [hp], by simp [hd], ?_, ?_⟩
                · rw [← hv]
                  exact hcl
                · rw [← hv]
                  exact hck
              · rw [cacheLookup_set_ne hk] at hkv
                exact Or.inl (cacheGet_snd_sub _ _ _ k v hkv)
      · simp only [hl] at h
        rcases Prod.mk.inj h with ⟨_, hc⟩
        rw [← hc] at hkv
        rw [cacheGet_hit_state hl] at hkv
        exact Or.inl hkv

/-- Witness for C2: fetching a dependency with the malformed locator
`nogit` fails at locator parsing and the (empty) cache is untouched. -/
theorem fetchDependency_atomicity_witness :
    cacheSub ([] : CacheState) [] :=
  (fetchDependency_atomicity emptyEnv "x" badGitDep []).1
    "invalid git URL for 'x': invalid repository format: nogit" [] rfl

/-- Claim C7: tree checksum determinism — two directory trees whose regular
files outside any `.git` path component have identical (relative path,
content) pairs (in particular, trees differing only by an injected `.git`
directory at any depth, or the same tree enumerated in another order)
receive identical digests: the paths are sorted and the hash is fed, per
file, the relative path, a null byte, the hex text of the file's own
digest, and a second null byte. -/
theorem directoryChecksum_tree_deterministic (sha256 : List Nat → List Nat)
    (t1 t2 : FileTree)
    (h1 : (t1.map Prod.fst).Nodup) (h2 : (t2.map Prod.fst).Nodup)
    (hperm : (t1.filter keepFile).Perm (t2.filter keepFile)) :
    CalculateDirectoryChecksum sha256 t1 = CalculateDirectoryChecksum sha256 t2 := by
  have hsort : List.insertionSort strLe ((t1.filter keepFile).map Prod.fst) =
      List.insertionSort strLe ((t2.filter keepFile).map Prod.fst) :=
    List.eq_of_perm_of_sorted
      (((List.perm_insertionSort strLe _).trans (hperm.map Prod.fst)).trans
        (List.perm_insertionSort strLe _).symm)
      (List.sorted_insertionSort strLe _) (List.sorted_insertionSort strLe _)
  have hbody : ∀ p ∈ List.insertionSort strLe ((t2.filter keepFile).map Prod.fst),
      strBytes p ++ [0] ++
          strBytes (CalculateFileChecksum sha256 ((treeLookup p t1).getD [])) ++ [0] =
        strBytes p ++ [0] ++
          strBytes (CalculateFileChecksum sha256 ((treeLookup p t2).getD [])) ++ [0] := by
    intro p hp
    have hp2 : p ∈ (t2.filter keepFile).map Prod.fst :=
      (List.perm_insertionSort strLe _).subset hp
    rcases List.mem_map.mp hp2 with ⟨pc, hmem, hfst⟩
    rcases pc with ⟨p0, cont⟩
    cases hfst
    have hm1 : (p0, cont) ∈ t1.filter keepFile := hperm.symm.subset hmem
    rw [treeLookup_eq_of_mem h1 (List.mem_of_mem_filter hm1),
      treeLookup_eq_of_mem h2 (List.mem_of_mem_filter hmem)]
  simp only [CalculateDirectoryChecksum]
  rw [hsort]
  exact congrArg hexOfBytes (congrArg sha256 (List.flatMap_congr hbody))

/-- Witness for C7: a two-file tree and the same files enumerated in another
order with `.git` directories injected at the root and under `src/` hash
identically (digest function instantiated with the identity). -/
theorem directoryChecksum_tree_deterministic_witness :
    CalculateDirectoryChecksum id plainTree = CalculateDirectoryChecksum id gitNoiseTree :=
  directoryChecksum_tree_deterministic id plainTree gitNoiseTree
    (by decide) (by decide) (by decide)
